import Mathlib

/-!
Shallow embedding of `src/topic-index/topic_index.c`.

The program is a single-pass streaming tokenizer over a character stream:
maximal runs of alphanumeric characters are lower-cased and recorded in a
word index together with the current sentence id; the characters `.`, `!`,
`?` advance the sentence counter.  After the stream ends the index is
sorted by occurrence count (descending), the topic word's record is looked
up, up to four further non-stop-word records are selected, and a report
with percentage figures is produced.

The C hash table is modelled as an association list with unique keys
(`List WordEntry`); the enumeration order of the C table is not
semantically meaningful, so every statement about the sorted array is
quantified over an arbitrary count-sorted permutation of the index.
Percentages (C `double`) are modelled as rationals.
-/

namespace TopicIndex

/-- The `STOP_WORDS` array from the source (the terminating NULL sentinel
becomes the end of the Lean list). -/
def STOP_WORDS : List String :=
  ["a", "an", "and", "are", "as", "at", "be", "by", "for", "from", "has", "he", "in",
   "is", "it", "its", "of", "on", "that", "the", "to", "was", "were", "will", "with",
   "I", "you", "me", "my", "we", "our", "they", "their", "them", "this", "those",
   "these", "your", "yours", "his", "her", "hers", "him", "she", "who", "whom",
   "what", "which", "when", "where", "why", "how", "if", "or", "but", "not"]

/-- `is_stop_word`: exact string membership in `STOP_WORDS`. -/
def is_stop_word (word : String) : Bool :=
  STOP_WORDS.contains word

/-- One entry of the word index (C struct `WordEntry`, without the
intrusive `next` pointer: the bucket lists are modelled by the ambient
`List`). `last_sentence_id` starts at `-1`, hence `Int`. -/
structure WordEntry where
  word : String
  count : Nat
  sentence_count : Nat
  last_sentence_id : Int
deriving DecidableEq, Repr

/-- The count/sentence-count update performed at the end of
`get_word_entry`: `count` is incremented unconditionally; if the entry's
last-seen sentence id differs from the current one, `sentence_count` is
incremented and the last-seen id updated. -/
def bumpEntry (e : WordEntry) (sid : Nat) : WordEntry :=
  let e1 := { e with count := e.count + 1 }
  if e1.last_sentence_id ≠ (sid : Int) then
    { e1 with sentence_count := e1.sentence_count + 1, last_sentence_id := (sid : Int) }
  else e1

/-- `get_word_entry` on the index: find the entry for `w` (creating it
with `count = 0`, `sentence_count = 0`, `last_sentence_id = -1` if absent)
and apply the count update.  A fresh entry is appended at the end; the C
code prepends it to its hash bucket, but no claim depends on enumeration
order. -/
def recordWord : List WordEntry → String → Nat → List WordEntry
  | [], w, sid => [bumpEntry { word := w, count := 0, sentence_count := 0, last_sentence_id := -1 } sid]
  | e :: rest, w, sid =>
    if e.word = w then bumpEntry e sid :: rest
    else e :: recordWord rest w sid

/-- The topic lower-casing loop of `main` (`tolower` applied to every
character). -/
def strToLower (s : String) : String :=
  String.mk (s.data.map Char.toLower)

/-- Lookup of a word in the index (the search loop of `get_word_entry`
and of the topic lookup in `main`). -/
def lookupWord : List WordEntry → String → Option WordEntry
  | [], _ => none
  | e :: rest, w => if e.word = w then some e else lookupWord rest w

/-- Sentence terminators recognised by `main`. -/
def isTerminator (c : Char) : Bool :=
  c = '.' || c = '!' || c = '?'

/-- The mutable processing state of `main`'s read loop. -/
structure ProcState where
  buf : String
  index : List WordEntry
  total_words : Nat
  total_sentences : Nat
  current_sentence_id : Nat
deriving DecidableEq, Repr

def initState : ProcState :=
  { buf := "", index := [], total_words := 0, total_sentences := 0, current_sentence_id := 0 }

/-- Word flush: if the buffer is non-empty, record it and count a word
(the `if (buf_len > 0)` block of `main`). -/
def flushBuf (s : ProcState) : ProcState :=
  if s.buf = "" then s
  else
    { s with
      index := recordWord s.index s.buf s.current_sentence_id,
      total_words := s.total_words + 1,
      buf := "" }

/-- One iteration of the `fgetc` loop: alphanumeric characters are
lower-cased and appended to the buffer; any other character flushes the
pending word and, if it is a terminator, bumps the sentence counter and
advances the current sentence id. -/
def processChar (s : ProcState) (c : Char) : ProcState :=
  if c.isAlphanum then { s with buf := s.buf.push c.toLower }
  else
    let s1 := flushBuf s
    if isTerminator c then
      { s1 with
        total_sentences := s1.total_sentences + 1,
        current_sentence_id := s1.total_sentences + 1 }
    else s1

/-- The whole read loop over an input string. -/
def processString (input : String) : ProcState :=
  input.toList.foldl processChar initState

/-- The read loop, the final flush of a still-buffered word, and the
post-hoc `total_sentences = 1` fallback for terminator-free input. -/
def runIndex (input : String) : ProcState :=
  let s := flushBuf (processString input)
  if s.total_sentences = 0 ∧ 0 < s.total_words then { s with total_sentences := 1 } else s

/-- The comparison used by `qsort` via `cmp_wordptr_count`: `a` sorts
before `b` when `b.count ≤ a.count` (descending counts). -/
def cmpRel (a b : WordEntry) : Prop :=
  b.count ≤ a.count

instance : DecidableRel cmpRel :=
  fun a b => inferInstanceAs (Decidable (b.count ≤ a.count))

instance : IsTotal WordEntry cmpRel :=
  ⟨fun a b => Nat.le_total b.count a.count⟩

instance : IsTrans WordEntry cmpRel :=
  ⟨fun _ _ _ h1 h2 => Nat.le_trans h2 h1⟩

/-- One deterministic stand-in for the `qsort` call (whose tie order is
unspecified): every theorem that depends on the sorted array is stated
for an arbitrary `cmpRel`-sorted permutation of the index, and this
function provides a concrete such permutation. -/
def sortedEntries (idx : List WordEntry) : List WordEntry :=
  List.insertionSort cmpRel idx

/-- The top-4 gathering loop of `main`: walk the sorted array while fewer
than `k` entries have been found, skipping the topic entry and stop
words. -/
def selectTop : Nat → Option WordEntry → List WordEntry → List WordEntry
  | _, _, [] => []
  | 0, _, _ :: _ => []
  | k + 1, t, e :: rest =>
    if t = some e then selectTop (k + 1) t rest
    else if is_stop_word e.word then selectTop (k + 1) t rest
    else e :: selectTop k t rest

/-- One printed row of the report (`PRINT_LINE`): the percentages are
`100 * count / total_words` and `100 * sentence_count / total_sentences`,
each `0` when the denominator is `0`. -/
structure ReportRow where
  word : String
  count : Nat
  pct_words : ℚ
  sentence_count : Nat
  total_sentences : Nat
  pct_sent : ℚ
deriving DecidableEq, Repr

def mkRow (total_words total_sentences : Nat) (e : WordEntry) : ReportRow :=
  { word := e.word
    count := e.count
    pct_words := if 0 < total_words then (100 * e.count : ℚ) / total_words else 0
    sentence_count := e.sentence_count
    total_sentences := total_sentences
    pct_sent := if 0 < total_sentences then (100 * e.sentence_count : ℚ) / total_sentences else 0 }

/-- The report: header totals, the topic row (omitted when the topic word
has no record, since `PRINT_LINE(NULL)` prints nothing), and the rows of
the selected top-4 other words. -/
structure Report where
  topic : String
  total_words : Nat
  total_sentences : Nat
  topicRow : Option ReportRow
  otherRows : List ReportRow
deriving DecidableEq, Repr

/-- The topic entry found by `main`: lookup of the lower-cased topic. -/
def topicEntryOf (input topic : String) : Option WordEntry :=
  lookupWord (runIndex input).index (strToLower topic)

/-- `main`'s reporting phase on a fully processed input: lower-case the
topic, look it up, select the top 4 others from the sorted array, and
build the rows. -/
def reportOf (input topic : String) : Report :=
  { topic := topic
    total_words := (runIndex input).total_words
    total_sentences := (runIndex input).total_sentences
    topicRow := (topicEntryOf input topic).map
      (mkRow (runIndex input).total_words (runIndex input).total_sentences)
    otherRows := (selectTop 4 (topicEntryOf input topic)
        (sortedEntries (runIndex input).index)).map
      (mkRow (runIndex input).total_words (runIndex input).total_sentences) }

/-- Process exit status. -/
inductive ExitStatus where
  | success
  | failure
deriving DecidableEq, Repr

/-- `main`'s control flow around the processing core.  `args` is `argv`
without the program name; `canOpen` tells whether `fopen` succeeds on a
path; `allocOk` is the allocation oracle (`xmalloc`/`realloc`/`strdup`
failure makes the process exit with `EXIT_FAILURE` before any report is
produced).  Returns the exit status and the report, `none` when the run
aborts before reporting. -/
def runProgram (args : List String) (canOpen : String → Bool) (allocOk : Bool)
    (input : String) : ExitStatus × Option Report :=
  match args with
  | [] => (ExitStatus.failure, none)
  | topic :: rest =>
    match rest with
    | path :: _ =>
      if canOpen path then
        if allocOk then (ExitStatus.success, some (reportOf input topic))
        else (ExitStatus.failure, none)
      else (ExitStatus.failure, none)
    | [] =>
      if allocOk then (ExitStatus.success, some (reportOf input topic))
      else (ExitStatus.failure, none)

/-- Number of sentence-terminator characters in the input. -/
def terminatorCount (input : String) : Nat :=
  (input.toList.filter isTerminator).length

/-- Sum of `count` over all entries of an index. -/
def sumCounts (idx : List WordEntry) : Nat :=
  (idx.map (fun e => e.count)).sum

/-- The processing invariant maintained by the read loop: `total_words`
equals the sum of the per-word counts, every entry satisfies
`sentence_count ≤ count`, and the index keys are unique. -/
def StateInv (s : ProcState) : Prop :=
  s.total_words = sumCounts s.index ∧
  (∀ e ∈ s.index, e.sentence_count ≤ e.count) ∧
  (s.index.map (fun e => e.word)).Nodup

/-- The worked example from the specification. -/
def sampleText : String :=
  "The cat sat. The cat ran. The dog slept."

theorem bumpEntry_word (e : WordEntry) (sid : Nat) : (bumpEntry e sid).word = e.word := by
  simp only [bumpEntry]
  split <;> rfl

theorem bumpEntry_count (e : WordEntry) (sid : Nat) : (bumpEntry e sid).count = e.count + 1 := by
  simp only [bumpEntry]
  split <;> rfl

theorem bumpEntry_sc_le (e : WordEntry) (sid : Nat) (h : e.sentence_count ≤ e.count) :
    (bumpEntry e sid).sentence_count ≤ (bumpEntry e sid).count := by
  simp only [bumpEntry]
  split
  · exact Nat.succ_le_succ h
  · exact Nat.le_succ_of_le h

theorem recordWord_sc_le (idx : List WordEntry) (w : String) (sid : Nat)
    (h : ∀ e ∈ idx, e.sentence_count ≤ e.count) :
    ∀ e ∈ recordWord idx w sid, e.sentence_count ≤ e.count := by
  induction idx with
  | nil =>
    intro e he
    simp only [recordWord, List.mem_singleton] at he
    subst he
    exact bumpEntry_sc_le _ _ (Nat.le_refl 0)
  | cons a rest ih =>
    intro e he
    simp only [recordWord] at he
    split at he
    · rcases List.mem_cons.1 he with rfl | hrest
      · exact bumpEntry_sc_le _ _ (h a (List.mem_cons_self a rest))
      · exact h e (List.mem_cons_of_mem a hrest)
    · rcases List.mem_cons.1 he with rfl | hrest
      · exact h e (List.mem_cons_self e rest)
      · exact ih (fun x hx => h x (List.mem_cons_of_mem a hx)) e hrest

theorem sumCounts_cons (e : WordEntry) (rest : List WordEntry) :
    sumCounts (e :: rest) = e.count + sumCounts rest := by
  simp [sumCounts]

theorem sumCounts_recordWord (idx : List WordEntry) (w : String) (sid : Nat) :
    sumCounts (recordWord idx w sid) = sumCounts idx + 1 := by
  induction idx with
  | nil => simp [recordWord, sumCounts, bumpEntry_count]
  | cons a rest ih =>
    simp only [recordWord]
    split
    · simp [sumCounts_cons, bumpEntry_count, Nat.add_right_comm]
    · simp [sumCounts_cons, ih, Nat.add_assoc]

theorem count_le_sumCounts {e : WordEntry} {idx : List WordEntry} (h : e ∈ idx) :
    e.count ≤ sumCounts idx := by
  induction idx with
  | nil => cases h
  | cons a rest ih =>
    rw [sumCounts_cons]
    rcases List.mem_cons.1 h with rfl | hrest
    · exact Nat.le_add_right _ _
    · exact (ih hrest).trans (Nat.le_add_left _ _)

theorem mem_words_recordWord {x : String} (idx : List WordEntry) (w : String) (sid : Nat)
    (h : x ∈ (recordWord idx w sid).map (fun e => e.word)) :
    x ∈ idx.map (fun e => e.word) ∨ x = w := by
  induction idx with
  | nil =>
    simp only [recordWord, List.map_cons, List.map_nil, List.mem_singleton, bumpEntry_word] at h
    exact Or.inr h
  | cons a rest ih =>
    simp only [recordWord] at h
    split at h
    · rename_i hw
      simp only [List.map_cons, List.mem_cons, bumpEntry_word] at h
      rcases h with rfl | h
      · exact Or.inr hw
      · exact Or.inl (List.mem_cons_of_mem _ (by simpa using h))
    · simp only [List.map_cons, List.mem_cons] at h
      rcases h with rfl | h
      · exact Or.inl (List.mem_cons_self _ _)
      · rcases ih h with hm | rfl
        · exact Or.inl (List.mem_cons_of_mem _ hm)
        · exact Or.inr rfl

theorem words_nodup_recordWord (idx : List WordEntry) (w : String) (sid : Nat)
    (h : (idx.map (fun e => e.word)).Nodup) :
    ((recordWord idx w sid).map (fun e => e.word)).Nodup := by
  induction idx with
  | nil => simp [recordWord]
  | cons a rest ih =>
    simp only [List.map_cons, List.nodup_cons] at h
    simp only [recordWord]
    split
    · simp only [List.map_cons, List.nodup_cons, bumpEntry_word]
      exact ⟨h.1, h.2⟩
    · rename_i hw
      simp only [List.map_cons, List.nodup_cons]
      refine ⟨fun hmem => ?_, ih h.2⟩
      rcases mem_words_recordWord rest w sid hmem with hm | rfl
      · exact h.1 hm
      · exact hw rfl

theorem stateInv_init : StateInv initState := by
  refine ⟨rfl, ?_, ?_⟩ <;> simp [initState]

theorem stateInv_flushBuf (s : ProcState) (h : StateInv s) : StateInv (flushBuf s) := by
  unfold flushBuf
  split
  · exact h
  · exact ⟨by simp [sumCounts_recordWord, h.1],
      recordWord_sc_le _ _ _ h.2.1,
      words_nodup_recordWord _ _ _ h.2.2⟩

theorem stateInv_processChar (s : ProcState) (c : Char) (h : StateInv s) :
    StateInv (processChar s c) := by
  unfold processChar
  split
  · exact h
  · split
    · exact stateInv_flushBuf s h
    · exact stateInv_flushBuf s h

theorem stateInv_foldl (cs : List Char) (s : ProcState) (h : StateInv s) :
    StateInv (cs.foldl processChar s) := by
  induction cs generalizing s with
  | nil => exact h
  | cons c rest ih => exact ih _ (stateInv_processChar s c h)

theorem stateInv_runIndex (input : String) : StateInv (runIndex input) := by
  have h : StateInv (flushBuf (processString input)) :=
    stateInv_flushBuf _ (stateInv_foldl _ _ stateInv_init)
  simp only [runIndex]
  split
  · exact ⟨h.1, h.2.1, h.2.2⟩
  · exact h

theorem flushBuf_total_sentences (s : ProcState) :
    (flushBuf s).total_sentences = s.total_sentences := by
  unfold flushBuf
  split <;> rfl

theorem flushBuf_total_words_le (s : ProcState) :
    s.total_words ≤ (flushBuf s).total_words := by
  unfold flushBuf
  split
  · exact Nat.le_refl _
  · exact Nat.le_succ _

theorem isTerminator_of_alnum {c : Char} (h : c.isAlphanum = true) :
    isTerminator c = false := by
  by_contra hne
  rw [Bool.not_eq_false] at hne
  simp only [isTerminator, Bool.or_eq_true, decide_eq_true_eq] at hne
  rcases hne with (rfl | rfl) | rfl <;> exact absurd h (by decide)

theorem processChar_total_sentences (s : ProcState) (c : Char) :
    (processChar s c).total_sentences =
      s.total_sentences + (if isTerminator c then 1 else 0) := by
  unfold processChar
  split
  · rename_i halnum
    simp [isTerminator_of_alnum halnum]
  · split
    · rename_i hterm
      simp [flushBuf_total_sentences, hterm]
    · rename_i hterm
      simp only [Bool.not_eq_true] at hterm
      simp [flushBuf_total_sentences, hterm]

theorem foldl_total_sentences (cs : List Char) (s : ProcState) :
    (cs.foldl processChar s).total_sentences =
      s.total_sentences + (cs.filter isTerminator).length := by
  induction cs generalizing s with
  | nil => rfl
  | cons c rest ih =>
    simp only [List.foldl_cons, ih, processChar_total_sentences, List.filter_cons]
    split
    · simp only [List.length_cons]
      omega
    · omega

theorem selectTop_sublist (t : Option WordEntry) :
    ∀ (l : List WordEntry) (k : Nat), List.Sublist (selectTop k t l) l := by
  intro l
  induction l with
  | nil => intro k; cases k <;> exact List.Sublist.refl _
  | cons e rest ih =>
    intro k
    cases k with
    | zero => exact List.nil_sublist _
    | succ j =>
      simp only [selectTop]
      split
      · exact (ih (j + 1)).cons e
      · split
        · exact (ih (j + 1)).cons e
        · exact (ih j).cons₂ e

theorem selectTop_length_le (t : Option WordEntry) :
    ∀ (l : List WordEntry) (k : Nat), (selectTop k t l).length ≤ k := by
  intro l
  induction l with
  | nil => intro k; cases k <;> exact Nat.zero_le _
  | cons e rest ih =>
    intro k
    cases k with
    | zero => exact Nat.le_refl 0
    | succ j =>
      simp only [selectTop]
      split
      · exact ih (j + 1)
      · split
        · exact ih (j + 1)
        · simpa using Nat.succ_le_succ (ih j)

theorem mem_selectTop_qualifies (t : Option WordEntry) :
    ∀ (l : List WordEntry) (k : Nat) (e : WordEntry), e ∈ selectTop k t l →
      t ≠ some e ∧ is_stop_word e.word = false := by
  intro l
  induction l with
  | nil => intro k e he; cases k <;> cases he
  | cons a rest ih =>
    intro k e he
    cases k with
    | zero => cases he
    | succ j =>
      simp only [selectTop] at he
      split at he
      · exact ih (j + 1) e he
      · split at he
        · exact ih (j + 1) e he
        · rcases List.mem_cons.1 he with rfl | hmem
          · rename_i hnt hns
            exact ⟨hnt, by simpa using hns⟩
          · exact ih j e hmem

theorem selectTop_sorted (t : Option WordEntry) (l : List WordEntry) (k : Nat)
    (hs : l.Sorted cmpRel) : (selectTop k t l).Sorted cmpRel :=
  hs.sublist (selectTop_sublist t l k)

theorem selectTop_max (t : Option WordEntry) :
    ∀ (l : List WordEntry) (k : Nat), l.Sorted cmpRel →
      ∀ e ∈ l, t ≠ some e → is_stop_word e.word = false → e ∉ selectTop k t l →
        ∀ x ∈ selectTop k t l, e.count ≤ x.count := by
  intro l
  induction l with
  | nil => intro k _ e he; cases he
  | cons a rest ih =>
    intro k hs e he hnt hns hnotin x hx
    cases k with
    | zero => cases hx
    | succ j =>
      simp only [selectTop] at hx hnotin
      by_cases h1 : t = some a
      · rw [if_pos h1] at hx hnotin
        rcases List.mem_cons.1 he with rfl | hmem
        · exact absurd h1 hnt
        · exact ih (j + 1) hs.of_cons e hmem hnt hns hnotin x hx
      · rw [if_neg h1] at hx hnotin
        by_cases h2 : is_stop_word a.word = true
        · rw [if_pos h2] at hx hnotin
          rcases List.mem_cons.1 he with rfl | hmem
          · exact absurd h2 (by simp [hns])
          · exact ih (j + 1) hs.of_cons e hmem hnt hns hnotin x hx
        · rw [if_neg h2] at hx hnotin
          rcases List.mem_cons.1 hx with rfl | hxmem
          · rcases List.mem_cons.1 he with rfl | hmem
            · exact absurd (List.mem_cons_self _ _) hnotin
            · exact List.rel_of_sorted_cons hs e hmem
          · rcases List.mem_cons.1 he with rfl | hmem
            · exact absurd (List.mem_cons_self _ _) hnotin
            · exact ih j hs.of_cons e hmem hnt hns
                (fun hc => hnotin (List.mem_cons_of_mem _ hc)) x hxmem

theorem bumpEntry_fresh (w : String) (sid : Nat) :
    bumpEntry { word := w, count := 0, sentence_count := 0, last_sentence_id := -1 } sid
      = { word := w, count := 1, sentence_count := 1, last_sentence_id := (sid : Int) } := by
  simp only [bumpEntry]
  split
  · rfl
  · rename_i h
    exact absurd (by omega : (-1 : Int) ≠ (sid : Int)) h

theorem bumpEntry_eq (e : WordEntry) (sid : Nat) :
    bumpEntry e sid =
      { word := e.word, count := e.count + 1,
        sentence_count :=
          if e.last_sentence_id = (sid : Int) then e.sentence_count
          else e.sentence_count + 1,
        last_sentence_id := (sid : Int) } := by
  simp only [bumpEntry]
  by_cases h : e.last_sentence_id = (sid : Int)
  · rw [if_neg (fun hc => hc h), if_pos h]
    simp [h]
  · rw [if_pos h, if_neg h]

theorem lookup_recordWord_fresh (idx : List WordEntry) (w : String) (sid : Nat)
    (h : lookupWord idx w = none) :
    lookupWord (recordWord idx w sid) w =
      some { word := w, count := 1, sentence_count := 1, last_sentence_id := (sid : Int) } := by
  induction idx with
  | nil =>
    simp [recordWord, bumpEntry_fresh, lookupWord]
  | cons a rest ih =>
    simp only [lookupWord] at h
    by_cases hw : a.word = w
    · rw [if_pos hw] at h
      exact Option.noConfusion h
    · rw [if_neg hw] at h
      simp only [recordWord]
      rw [if_neg hw]
      simp only [lookupWord]
      rw [if_neg hw]
      exact ih h

theorem lookup_recordWord_existing (idx : List WordEntry) (w : String) (sid : Nat)
    (e : WordEntry) (h : lookupWord idx w = some e) :
    lookupWord (recordWord idx w sid) w =
      some { word := e.word, count := e.count + 1,
             sentence_count :=
               if e.last_sentence_id = (sid : Int) then e.sentence_count
               else e.sentence_count + 1,
             last_sentence_id := (sid : Int) } := by
  induction idx with
  | nil =>
    simp only [lookupWord] at h
    exact Option.noConfusion h
  | cons a rest ih =>
    simp only [lookupWord] at h
    by_cases hw : a.word = w
    · rw [if_pos hw] at h
      injection h with h
      subst h
      simp only [recordWord]
      rw [if_pos hw]
      simp only [lookupWord, bumpEntry_eq]
      rw [if_pos hw]
    · rw [if_neg hw] at h
      simp only [recordWord]
      rw [if_neg hw]
      simp only [lookupWord]
      rw [if_neg hw]
      exact ih h

theorem runIndex_total_words (input : String) :
    (runIndex input).total_words = (flushBuf (processString input)).total_words := by
  simp only [runIndex]
  split <;> rfl

theorem runIndex_total_sentences (input : String) :
    (runIndex input).total_sentences =
      if terminatorCount input = 0 ∧ 0 < (flushBuf (processString input)).total_words then 1
      else terminatorCount input := by
  have hts : (flushBuf (processString input)).total_sentences = terminatorCount input := by
    rw [flushBuf_total_sentences]
    unfold processString
    rw [foldl_total_sentences]
    simp [initState, terminatorCount]
  simp only [runIndex]
  split
  · rename_i h
    rw [if_pos ⟨hts ▸ h.1, h.2⟩]
  · rename_i h
    rw [if_neg (fun hc => h ⟨hts.symm ▸ hc.1, hc.2⟩), ← hts]

/-- C3: for every input, every final WordRecord satisfies
`sentence_count ≤ total_count`, and the inequality is preserved by every
recording call. -/
theorem claim_sentence_le_count :
    (∀ input : String, ∀ e ∈ (runIndex input).index, e.sentence_count ≤ e.count) ∧
    (∀ (idx : List WordEntry) (w : String) (sid : Nat),
      (∀ e ∈ idx, e.sentence_count ≤ e.count) →
      ∀ e ∈ recordWord idx w sid, e.sentence_count ≤ e.count) :=
  ⟨fun input e he => (stateInv_runIndex input).2.1 e he,
   fun idx w sid h e he => recordWord_sc_le idx w sid h e he⟩

theorem claim_sentence_le_count_witness :
    ({ word := "dog", count := 3, sentence_count := 1, last_sentence_id := 0 } : WordEntry)
        ∈ (runIndex "dog dog dog.").index ∧
    ({ word := "dog", count := 3, sentence_count := 1, last_sentence_id := 0 } : WordEntry).sentence_count
      ≤ ({ word := "dog", count := 3, sentence_count := 1, last_sentence_id := 0 } : WordEntry).count :=
  ⟨by decide,
   claim_sentence_le_count.1 "dog dog dog."
     { word := "dog", count := 3, sentence_count := 1, last_sentence_id := 0 } (by decide)⟩

/-- C4: recording a word occurrence increments `total_count` by 1
unconditionally and `sentence_count` by 1 only when the sentence id
differs from the record's last-seen id (which is then updated); the
examples "dog dog dog." and "Cats cats CATS." each yield a single record
with `total_count = 3`, `sentence_count = 1`. -/
theorem claim_record_contract :
    (∀ (idx : List WordEntry) (w : String) (sid : Nat),
      lookupWord idx w = none →
      lookupWord (recordWord idx w sid) w =
        some { word := w, count := 1, sentence_count := 1, last_sentence_id := (sid : Int) }) ∧
    (∀ (idx : List WordEntry) (w : String) (sid : Nat) (e : WordEntry),
      lookupWord idx w = some e →
      lookupWord (recordWord idx w sid) w =
        some { word := e.word, count := e.count + 1,
               sentence_count :=
                 if e.last_sentence_id = (sid : Int) then e.sentence_count
                 else e.sentence_count + 1,
               last_sentence_id := (sid : Int) }) ∧
    (runIndex "dog dog dog.").index
      = [{ word := "dog", count := 3, sentence_count := 1, last_sentence_id := 0 }] ∧
    (runIndex "Cats cats CATS.").index
      = [{ word := "cats", count := 3, sentence_count := 1, last_sentence_id := 0 }] :=
  ⟨lookup_recordWord_fresh, lookup_recordWord_existing, by decide, by decide⟩

theorem claim_record_contract_witness :
    lookupWord ([] : List WordEntry) "dog" = none ∧
    lookupWord (recordWord [] "dog" 0) "dog" =
      some { word := "dog", count := 1, sentence_count := 1, last_sentence_id := 0 } :=
  ⟨by decide, claim_record_contract.1 [] "dog" 0 (by decide)⟩

/-- C5: `total_sentences` equals the number of terminator characters in
the input, except that it is forced to 1 when the input produced at least
one word and no terminator; e.g. "hello world" reports 1. -/
theorem claim_total_sentences :
    (∀ input : String,
      (runIndex input).total_sentences =
        if terminatorCount input = 0 ∧ 0 < (runIndex input).total_words then 1
        else terminatorCount input) ∧
    (runIndex "hello world").total_sentences = 1 := by
  constructor
  · intro input
    rw [runIndex_total_sentences, runIndex_total_words]
  · decide

/-- C8: on empty input the run reports `total_words = 0` and
`total_sentences = 0`, and the report has no topic row and no top-other
rows, for any topic word. -/
theorem claim_empty_input : ∀ topic : String,
    (runIndex "").total_words = 0 ∧
    (runIndex "").total_sentences = 0 ∧
    (reportOf "" topic).topicRow = none ∧
    (reportOf "" topic).otherRows = [] :=
  fun _ => ⟨rfl, rfl, rfl, rfl⟩

/-- C9: after processing, `total_words` equals the sum of `total_count`
over all records, so every record's `total_count` is at most
`total_words`. -/
theorem claim_total_words_sum : ∀ input : String,
    (runIndex input).total_words = sumCounts (runIndex input).index ∧
    ∀ e ∈ (runIndex input).index, e.count ≤ (runIndex input).total_words := by
  intro input
  refine ⟨(stateInv_runIndex input).1, fun e he => ?_⟩
  rw [(stateInv_runIndex input).1]
  exact count_le_sumCounts he

theorem claim_total_words_sum_witness :
    (runIndex "dog dog dog.").total_words = sumCounts (runIndex "dog dog dog.").index ∧
    ({ word := "dog", count := 3, sentence_count := 1, last_sentence_id := 0 } : WordEntry).count
      ≤ (runIndex "dog dog dog.").total_words :=
  ⟨(claim_total_words_sum "dog dog dog.").1,
   (claim_total_words_sum "dog dog dog.").2
     { word := "dog", count := 3, sentence_count := 1, last_sentence_id := 0 } (by decide)⟩

/-- C2 counterexample: on input "dog." with topic "cat" the topic word is
absent and the report contains NO topic row at all (the claim asserts a
zero-count topic row is printed; `PRINT_LINE(NULL)` prints nothing). -/
theorem claim_topic_absent_counterexample :
    topicEntryOf "dog." "cat" = none ∧
    (reportOf "dog." "cat").topicRow = none ∧
    ¬ ∃ r : ReportRow, (reportOf "dog." "cat").topicRow = some r := by
  refine ⟨by decide, by decide, ?_⟩
  rintro ⟨r, hr⟩
  rw [(by decide : (reportOf "dog." "cat").topicRow = none)] at hr
  exact Option.noConfusion hr

/-- C2 (amended): when the lower-cased topic word has no record, the
program still completes normally (exit success), and the report omits the
topic row entirely. -/
theorem claim_topic_absent_amended : ∀ (input topic : String),
    topicEntryOf input topic = none →
    (reportOf input topic).topicRow = none ∧
    (runProgram [topic] (fun _ => true) true input).1 = ExitStatus.success := by
  intro input topic h
  constructor
  · simp only [reportOf, h]
    rfl
  · rfl

theorem claim_topic_absent_amended_witness :
    (reportOf "dog." "cat").topicRow = none ∧
    (runProgram ["cat"] (fun _ => true) true "dog.").1 = ExitStatus.success :=
  claim_topic_absent_amended "dog." "cat" (by decide)

/-- C7: the run exits successfully exactly when a topic argument is
present, the input path (when given) can be opened, and no allocation
fails; on a missing topic argument or an unopenable path no report is
produced. -/
theorem claim_exit_status :
    ∀ (args : List String) (canOpen : String → Bool) (allocOk : Bool) (input : String),
    ((runProgram args canOpen allocOk input).1 = ExitStatus.success ↔
      args ≠ [] ∧ allocOk = true ∧
        (∀ topic path rest, args = topic :: path :: rest → canOpen path = true)) ∧
    (args = [] → (runProgram args canOpen allocOk input).2 = none) ∧
    (∀ topic path rest, args = topic :: path :: rest → canOpen path = false →
      (runProgram args canOpen allocOk input).2 = none) := by
  intro args canOpen allocOk input
  match args with
  | [] =>
    refine ⟨?_, fun _ => rfl, fun topic path rest h => absurd h (by simp)⟩
    simp [runProgram]
  | [topic] =>
    refine ⟨?_, fun h => absurd h (by simp), fun t p r h => absurd h (by simp)⟩
    cases allocOk <;> simp [runProgram]
  | topic :: path :: rest =>
    cases hco : canOpen path <;> cases allocOk <;>
      constructor <;>
      simp [runProgram, hco]

/-- Witness for C7: with no arguments the run aborts before producing a
report. -/
theorem claim_exit_status_witness :
    (runProgram [] (fun _ => true) true "").2 = none :=
  (claim_exit_status [] (fun _ => true) true "").2.1 rfl

/-- C6: on "The cat sat. The cat ran. The dog slept." with topic "cat",
the totals are 9 words and 3 sentences; "cat" has count 2 in 2 sentences;
"the" has the highest count 3 but is a stop word and is never selected
among the top others; "dog", "sat", "ran", "slept" each have count 1. -/
theorem claim_sample_report :
    (runIndex sampleText).total_words = 9 ∧
    (runIndex sampleText).total_sentences = 3 ∧
    (lookupWord (runIndex sampleText).index "cat").map
      (fun e => (e.count, e.sentence_count)) = some (2, 2) ∧
    (lookupWord (runIndex sampleText).index "the").map (fun e => e.count) = some 3 ∧
    is_stop_word "the" = true ∧
    (∀ (l : List WordEntry) (e : WordEntry),
      e ∈ selectTop 4 (topicEntryOf sampleText "cat") l → e.word ≠ "the") ∧
    (lookupWord (runIndex sampleText).index "dog").map (fun e => e.count) = some 1 ∧
    (lookupWord (runIndex sampleText).index "sat").map (fun e => e.count) = some 1 ∧
    (lookupWord (runIndex sampleText).index "ran").map (fun e => e.count) = some 1 ∧
    (lookupWord (runIndex sampleText).index "slept").map (fun e => e.count) = some 1 := by
  refine ⟨by decide, by decide, by decide, by decide, by decide, ?_,
    by decide, by decide, by decide, by decide⟩
  intro l e he hw
  have hq := (mem_selectTop_qualifies _ l 4 e he).2
  rw [hw] at hq
  exact absurd hq (by decide)

theorem claim_sample_report_witness :
    ({ word := "sat", count := 1, sentence_count := 1, last_sentence_id := 0 } : WordEntry)
        ∈ selectTop 4 (topicEntryOf sampleText "cat")
            (sortedEntries (runIndex sampleText).index) ∧
    ({ word := "sat", count := 1, sentence_count := 1, last_sentence_id := 0 } : WordEntry).word
      ≠ "the" :=
  ⟨by decide,
   claim_sample_report.2.2.2.2.2.1 (sortedEntries (runIndex sampleText).index)
     { word := "sat", count := 1, sentence_count := 1, last_sentence_id := 0 } (by decide)⟩

/-- C10: for any count-descending-sorted permutation of the final index,
the selected top-other entries are at most 4, pairwise distinct, none is
the topic entry or a stop word, their counts are non-increasing in
selection order, and every non-selected qualifying entry of the index has
count at most that of each selected entry. -/
theorem claim_top_others (input topic : String) (l : List WordEntry)
    (hp : (runIndex input).index.Perm l) (hs : l.Sorted cmpRel) :
    (selectTop 4 (topicEntryOf input topic) l).length ≤ 4 ∧
    (selectTop 4 (topicEntryOf input topic) l).Nodup ∧
    (∀ e ∈ selectTop 4 (topicEntryOf input topic) l,
      topicEntryOf input topic ≠ some e ∧ is_stop_word e.word = false) ∧
    (selectTop 4 (topicEntryOf input topic) l).Sorted cmpRel ∧
    (∀ e ∈ (runIndex input).index,
      topicEntryOf input topic ≠ some e → is_stop_word e.word = false →
      e ∉ selectTop 4 (topicEntryOf input topic) l →
      ∀ x ∈ selectTop 4 (topicEntryOf input topic) l, e.count ≤ x.count) := by
  refine ⟨selectTop_length_le _ _ _, ?_,
    fun e he => mem_selectTop_qualifies _ l 4 e he,
    selectTop_sorted _ _ _ hs,
    fun e he hnt hns hnotin x hx =>
      selectTop_max _ l 4 hs e (hp.subset he) hnt hns hnotin x hx⟩
  have hidx : (runIndex input).index.Nodup :=
    ((stateInv_runIndex input).2.2).of_map
  exact (hp.nodup_iff.mp hidx).sublist (selectTop_sublist _ l 4)

theorem claim_top_others_witness :
    (selectTop 4 (topicEntryOf sampleText "cat")
        (sortedEntries (runIndex sampleText).index)).length ≤ 4 ∧
    (selectTop 4 (topicEntryOf sampleText "cat")
        (sortedEntries (runIndex sampleText).index)).Nodup ∧
    (∀ e ∈ selectTop 4 (topicEntryOf sampleText "cat")
        (sortedEntries (runIndex sampleText).index),
      topicEntryOf sampleText "cat" ≠ some e ∧ is_stop_word e.word = false) ∧
    (selectTop 4 (topicEntryOf sampleText "cat")
        (sortedEntries (runIndex sampleText).index)).Sorted cmpRel ∧
    (∀ e ∈ (runIndex sampleText).index,
      topicEntryOf sampleText "cat" ≠ some e → is_stop_word e.word = false →
      e ∉ selectTop 4 (topicEntryOf sampleText "cat")
            (sortedEntries (runIndex sampleText).index) →
      ∀ x ∈ selectTop 4 (topicEntryOf sampleText "cat")
            (sortedEntries (runIndex sampleText).index), e.count ≤ x.count) :=
  claim_top_others sampleText "cat" (sortedEntries (runIndex sampleText).index)
    (List.perm_insertionSort cmpRel _).symm
    (List.sorted_insertionSort cmpRel _)

/-- C1 (code-bug exhibit): on input "a. a" with topic "a" the printed
topic row has `sentence_count = 2` but `total_sentences = 1`, so the
percentage-of-sentences figure is 200, outside `[0, 100]`: a word
occurring after the final terminator is given a sentence id that
`total_sentences` never counts. -/
theorem claim_percentage_bug :
    (reportOf "a. a" "a").topicRow.map
      (fun r => (r.sentence_count, r.total_sentences)) = some (2, 1) ∧
    (reportOf "a. a" "a").topicRow.map (fun r => r.pct_sent) = some 200 ∧
    ¬ (200 : ℚ) ≤ 100 := by
  have h : topicEntryOf "a. a" "a"
      = some { word := "a", count := 2, sentence_count := 2, last_sentence_id := 1 } := by
    decide
  have h2 : (runIndex "a. a").total_sentences = 1 := by decide
  refine ⟨?_, ?_, by norm_num⟩
  · simp only [reportOf, h, h2, Option.map_some]
    rfl
  · simp only [reportOf, h, h2, Option.map_some]
    norm_num [mkRow]

end TopicIndex
